import Mathlib

/-!
Verification development for the block-device readahead core of
`fsimageplugin/filesystem.cpp` (UrBackup backend).  The C++ source is embedded
shallowly: pure computations become Lean functions, the mutable
`Filesystem`/`ReadaheadThread` state becomes explicit state records, the two
threads of the readahead protocol become an interleaved step relation, and
machine pointers that may be `NULL` become `Option`.  Line numbers in doc
comments refer to `src/fsimageplugin/filesystem.cpp`.
-/

namespace UrFS

/-! ## Constants (filesystem.cpp lines 46-48) -/

/-- Constant `max_idle_buffers` (line 46). -/
def max_idle_buffers : Nat := 64

/-- Constant `readahead_num_blocks` (line 47). -/
def readahead_num_blocks : Nat := 5120

/-- Constant `readahead_low_level_blocks = readahead_num_blocks/2` (line 48). -/
def readahead_low_level_blocks : Nat := readahead_num_blocks / 2

/-! ## Buffer pool: `Filesystem::getBuffer` (420-434), `Filesystem::releaseBuffer` (436-449)

Buffers are identified by natural numbers; `buffers` is the idle stack
(`std::vector<char*> buffers`), `nextFresh` is a ghost allocator counter for
`new char[getBlocksize()]`, `freedCount` a ghost counter of `delete[]` calls,
and `outstanding` a ghost count of buffers handed to callers and not yet
released (used to state the leak claims). -/

structure PoolState where
  buffers : List Nat
  nextFresh : Nat
  freedCount : Nat
  outstanding : Nat
deriving Repr, DecidableEq

/-- The pool of a freshly constructed `Filesystem` (member `buffers` empty). -/
def initPool : PoolState := ⟨[], 0, 0, 0⟩

/-- `Filesystem::getBuffer` (420-434): if the idle stack is non-empty, pop and
return its last element (`buffers[buffers.size()-1]`, erased at that index);
otherwise allocate a fresh buffer. -/
def getBuffer (s : PoolState) : Nat × PoolState :=
  match s.buffers.getLast? with
  | some b => (b, { s with buffers := s.buffers.dropLast, outstanding := s.outstanding + 1 })
  | none => (s.nextFresh,
      { s with nextFresh := s.nextFresh + 1, outstanding := s.outstanding + 1 })

/-- `Filesystem::releaseBuffer` (436-449): under the lock, push the buffer back
if the idle count is below `max_idle_buffers`; otherwise `delete[]` it. -/
def releaseBuffer (s : PoolState) (buf : Nat) : PoolState :=
  if s.buffers.length < max_idle_buffers then
    { s with buffers := s.buffers ++ [buf], outstanding := s.outstanding - 1 }
  else
    { s with freedCount := s.freedCount + 1, outstanding := s.outstanding - 1 }

/-- A call sequence against the pool: each element is an acquire or a release. -/
inductive PoolOp where
  | acquire : PoolOp
  | release : Nat → PoolOp
deriving Repr, DecidableEq

/-- Apply one pool call. -/
def applyPoolOp (s : PoolState) : PoolOp → PoolState
  | PoolOp.acquire => (getBuffer s).2
  | PoolOp.release b => releaseBuffer s b

/-- Run a sequence of pool calls from a starting state. -/
def runPoolOps (ops : List PoolOp) (s : PoolState) : PoolState :=
  ops.foldl applyPoolOp s

/-! ## Bitmap presence test: `Filesystem::hasBlock` (288-301)

The bitmap is a byte list.  The C++ computes `bitmap_byte = pBlock/8`,
`bitmap_bit = pBlock%8` and reads `bitmap[bitmap_byte]` with **no** range
check; an access whose byte index lies outside the bitmap is an out-of-bounds
read (undefined behavior), modelled here as `none`.  A negative `pBlock` is
likewise `none`: `(size_t)(pBlock/8)` then either wraps to a huge index or,
for `-8 < pBlock < 0`, truncates to byte 0 with a negative shift amount
(`1 << bitmap_bit` with `bitmap_bit < 0`), both undefined. -/

def hasBlockM (bitmap : List Nat) (pBlock : Int) : Option Bool :=
  if h : 0 ≤ pBlock ∧ (pBlock / 8).toNat < bitmap.length then
    some (Nat.testBit (bitmap.get ⟨(pBlock / 8).toNat, h.2⟩) (pBlock % 8).toNat)
  else
    none

/-! ## Low-level read with retry: `Filesystem::readFromDev` (367-384)

The device is modelled by the byte stream at the current seek position
(`byte`) together with the byte count each successive `dev->Read` call
delivers (`chunk`, capped at the requested size).  The buffer is the list of
bytes assembled so far (writes always land at offset `rc = buf.length`,
matching `dev->Read(buf+rc, bsize-rc)`). -/

structure DevRead where
  chunk : Nat → Nat
  byte : Nat → Nat

/-- One `dev->Read(buf+rc, want)` call: appends the next
`min (chunk k) want` bytes of the stream to the buffer. -/
def readCall (d : DevRead) (k : Nat) (buf : List Nat) (want : Nat) : List Nat :=
  buf ++ (List.range (min (d.chunk k) want)).map (fun j => d.byte (buf.length + j))

/-- The retry loop of `readFromDev` (371-382).  `k` is the index of the next
`Read` call, `tries` the remaining retry budget.  The C++ decrements `tries`
(starting at 20) after every retry read and returns `false` once it goes
negative, i.e. on the retry performed with `tries == 0` — **after** that
read's data has been consumed and **before** re-testing `rc < bsize`, so a
block completed exactly by the 21st retry still fails.  The result is
(success flag, total number of `Read` calls performed, assembled buffer). -/
def readFromDevLoop (d : DevRead) (bsize : Nat) : Nat → List Nat → Nat → Bool × Nat × List Nat
  | k, buf, 0 =>
    if buf.length < bsize then (false, k + 1, readCall d k buf (bsize - buf.length))
    else (true, k, buf)
  | k, buf, t + 1 =>
    if buf.length < bsize then
      readFromDevLoop d bsize (k + 1) (readCall d k buf (bsize - buf.length)) t
    else (true, k, buf)

/-- `Filesystem::readFromDev` (367-384): first `Read` (line 370), then the
retry loop with `tries = 20`. -/
def readFromDev (d : DevRead) (bsize : Nat) : Bool × Nat × List Nat :=
  readFromDevLoop d bsize 1 (readCall d 0 [] bsize) 20

/-! ## Direct (non-readahead) read path: `Filesystem::readBlock` (303-341)

Configuration of a device with no readahead thread: the bitmap, the block
size, per-seek success (`dev->Seek(pBlock*blocksize)`, line 320) and the
device read behavior after a seek to `pBlock * blocksize` (lines 328 and
367-384 read from the seeked position). -/

structure FsCfg where
  bitmap : List Nat
  blocksize : Nat
  seekOk : Int → Bool
  dev : Int → DevRead

/-- Mutable `Filesystem` state touched by the direct path: the buffer pool and
the sticky `has_error` flag. -/
structure FsState where
  pool : PoolState
  has_error : Bool
deriving Repr, DecidableEq

/-- `Filesystem::readBlock` (303-341), direct path (`readahead_thread` NULL).
Lines 305-313 recompute the bitmap bit inline (same computation as
`hasBlock`); an unset bit returns NULL without touching state (315-316); a
failed seek sets `has_error` and returns NULL (320-326); otherwise a buffer
is acquired (327) and `readFromDev` fills it (328): on success the filled
buffer is returned (335), on failure `has_error` is set and NULL returned
(329-333) — **without** releasing the acquired buffer.  The outer `none`
models the undefined behavior of an out-of-range bitmap access. -/
def readBlockDirect (cfg : FsCfg) (s : FsState) (pBlock : Int) :
    Option (Option Nat × FsState) :=
  match hasBlockM cfg.bitmap pBlock with
  | none => none
  | some false => some (none, s)
  | some true =>
    if cfg.seekOk pBlock = false then
      some (none, { s with has_error := true })
    else
      let buf := (getBuffer s.pool).1
      let pool2 := (getBuffer s.pool).2
      if (readFromDev (cfg.dev pBlock) cfg.blocksize).1 then
        some (some buf, { s with pool := pool2 })
      else
        some (none, { s with pool := pool2, has_error := true })

/-- Classification of what `readBlockDirect` does at one block; note that it
depends only on the configuration, never on the mutable state. -/
inductive RBOutcome where
  | ub : RBOutcome
  | absent : RBOutcome
  | seekFail : RBOutcome
  | readFail : RBOutcome
  | success : RBOutcome
deriving Repr, DecidableEq

/-- Outcome of the direct read path at block `b` under configuration `cfg`. -/
def rbOutcome (cfg : FsCfg) (b : Int) : RBOutcome :=
  match hasBlockM cfg.bitmap b with
  | none => RBOutcome.ub
  | some false => RBOutcome.absent
  | some true =>
    if cfg.seekOk b = false then RBOutcome.seekFail
    else if (readFromDev (cfg.dev b) cfg.blocksize).1 then RBOutcome.success
    else RBOutcome.readFail

/-- `readBlockDirect` re-indexed by its outcome: the result and state change
it performs in each of the five cases (proved equal to `readBlockDirect` in
`readBlockDirect_cases` below). -/
def rbStep (o : RBOutcome) (s : FsState) : Option (Option Nat × FsState) :=
  match o with
  | RBOutcome.ub => none
  | RBOutcome.absent => some (none, s)
  | RBOutcome.seekFail => some (none, { s with has_error := true })
  | RBOutcome.readFail =>
    some (none, { s with pool := (getBuffer s.pool).2, has_error := true })
  | RBOutcome.success =>
    some (some (getBuffer s.pool).1, { s with pool := (getBuffer s.pool).2 })

/-! ## Bulk read: `Filesystem::readBlocks` (343-365)

The accumulator mirrors the local state of the loop: `ret` (the returned
index list), `currbuf` (the independently incremented destination slot
counter), the ghost write log (destination slot, source block) recording each
`memcpy(buffers[currbuf]+buffer_offset, buf, blocksize)`, and the
`Filesystem` state. -/

structure RBAcc where
  ret : List Int
  currbuf : Nat
  writes : List (Nat × Int)
  fsSt : FsState
deriving Repr, DecidableEq

/-- Loop of `readBlocks` (351-362), `n` iterations starting at block `i`:
`readBlock(i)`; a non-NULL result is copied into destination slot `currbuf`,
the slot counter advances, `i` is appended to `ret`, and the source buffer is
released to the pool.  A NULL result (absent block or failed read) is skipped
entirely.  `none` propagates the undefined behavior marker of
`readBlockDirect`. -/
def readBlocksGo (cfg : FsCfg) : Nat → Int → RBAcc → Option RBAcc
  | 0, _, acc => some acc
  | n + 1, i, acc =>
    match readBlockDirect cfg acc.fsSt i with
    | none => none
    | some (none, s2) => readBlocksGo cfg n (i + 1) { acc with fsSt := s2 }
    | some (some buf, s2) =>
      readBlocksGo cfg n (i + 1)
        { ret := acc.ret ++ [i], currbuf := acc.currbuf + 1,
          writes := acc.writes ++ [(acc.currbuf, i)],
          fsSt := { s2 with pool := releaseBuffer s2.pool buf } }

/-- `Filesystem::readBlocks` (343-365) on a readahead-free device. -/
def readBlocks (cfg : FsCfg) (s : FsState) (pStartBlock : Int) (n : Nat) : Option RBAcc :=
  readBlocksGo cfg n pStartBlock { ret := [], currbuf := 0, writes := [], fsSt := s }

/-! ## Consumer cache lookup: `ReadaheadThread::getBlock` (142-167)

The cache map `std::map<int64, char*> read_blocks` is a list of
(block index, buffer) pairs; the buffer is `Option Nat` because the task
stores the result of `fs.readBlock` (line 123) even when it is NULL.
The loop body (149-164) is modelled one round per step: `ret` is the **outer**
`char* ret` of line 148.  Line 155 declares a *new* local
`char* ret = it->second;`, shadowing the outer one, so in the found branch
the entry is erased but the outer `ret` is never assigned and the looked-up
buffer is dropped.  In the miss branch, `readaheadFromInt` directs the task at
the block and the consumer waits on `read_block_cond`; the task's servicing of
the miss (fetch, store at line 123, notify at 127) is folded into the round as
the wait's effect, inserting `(b, sv)` where `sv` is the device-read result
(`none` when the read failed). -/

def eraseKey (m : List (Int × Option Nat)) (b : Int) : List (Int × Option Nat) :=
  m.filter (fun kv => kv.1 ≠ b)

/-- State of one `getBlock` round: the cache map and the outer `ret`. -/
structure GetBlockRound where
  m : List (Int × Option Nat)
  ret : Option Nat
deriving Repr, DecidableEq

/-- One iteration of the `while(ret==NULL)` loop of `getBlock` (149-164), as
written: the found branch erases the entry but assigns the shadowed local of
line 155, leaving the outer `ret` unchanged. -/
def getBlockBody (sv : Option Nat) (b : Int) (r : GetBlockRound) : GetBlockRound :=
  match r.m.lookup b with
  | some _ => { m := eraseKey r.m b, ret := r.ret }
  | none => { m := (b, sv) :: r.m, ret := r.ret }

/-- Iterate `getBlockBody` `n` times. -/
def getBlockIter (sv : Option Nat) (b : Int) : Nat → GetBlockRound → GetBlockRound
  | 0, r => r
  | n + 1, r => getBlockIter sv b n (getBlockBody sv b r)

/-- The same round with the line-155 shadowing slip repaired (the outer `ret`
receives `it->second`), used to isolate claim C5: when the task's fetch failed
it stored NULL, so even the repaired loop obtains `ret = NULL`, re-issues the
fetch, and never consults `has_error`. -/
def getBlockBodyAssigned (sv : Option Nat) (b : Int) (r : GetBlockRound) : GetBlockRound :=
  match r.m.lookup b with
  | some v => { m := eraseKey r.m b, ret := v }
  | none => { m := (b, sv) :: r.m, ret := r.ret }

/-- Iterate `getBlockBodyAssigned` `n` times. -/
def getBlockIterAssigned (sv : Option Nat) (b : Int) : Nat → GetBlockRound → GetBlockRound
  | 0, r => r
  | n + 1, r => getBlockIterAssigned sv b n (getBlockBodyAssigned sv b r)

/-! ## Forward scan: `ReadaheadThread::next_used_block` (203-218) -/

/-- `next_used_block` (203-218): while `pBlock < size/blocksize`, increment
and return the first incremented index the bitmap marks occupied; `-1` when
the scan passes the last addressable block.  `occ` is the `fs.hasBlock` test
(its result at the boundary index `nblocks`, which the source does query, is
part of the model) and `nblocks = fs.getSize()/fs.getBlocksize()`. -/
def next_used_block (occ : Int → Bool) (nblocks : Int) (pBlock : Int) : Int :=
  if _h : pBlock < nblocks then
    if occ (pBlock + 1) then pBlock + 1
    else next_used_block occ nblocks (pBlock + 1)
  else
    -1
termination_by (nblocks - pBlock).toNat
decreasing_by
  omega

/-- The advance loop of `ReadaheadThread::operator()` (108-116), *as the
specification defines it* (spec section 9, design note): the source line 111
reads `read_blocks.find(current_block);` and discards the result, so line 112
tests a never-assigned iterator — undefined behavior.  The spec declares the
evidently intended behavior normative: while `current_block` is already a key
of the cache map, advance it with `next_used_block`.  The guard
`c < c2 ∧ c2 ≤ nblocks` holds whenever `next_used_block` returns a block
(it only fails for the `-1` result, where the source loop also exits, the
cache holding no key `-1` in any run the source can produce). -/
def advanceLoop (occ : Int → Bool) (nblocks : Int) (m : List Int) (c : Int) : Int :=
  if c ∈ m then
    let c2 := next_used_block occ nblocks c
    if _h : c < c2 ∧ c2 ≤ nblocks then advanceLoop occ nblocks m c2 else c2
  else
    c
termination_by (nblocks + 1 - c).toNat
decreasing_by
  omega

/-- The advance loop as literally written, under the resolution of the
uninitialized-iterator test where the junk `it` compares equal to
`read_blocks.end()`: the `if` of line 112 is never taken and the do-while
exits after one iteration, so `current_block` is returned unchanged even when
it is already cached. -/
def buggyAdvanceExit (m : List Int) (c : Int) : Int :=
  match m with
  | _ => c

/-- The advance loop as literally written, under the resolution where the junk
`it` compares *unequal* to `read_blocks.end()`: the body advances
`current_block` every iteration and the loop condition never becomes false, so
the loop never terminates — no fuel suffices to reach an exit. -/
def buggyAdvanceSpin (occ : Int → Bool) (nblocks : Int) : Nat → Int → Option Int
  | 0, _ => none
  | fuel + 1, c => buggyAdvanceSpin occ nblocks fuel (next_used_block occ nblocks c)

/-! ## The readahead protocol as an interleaved state machine

`ReadaheadThread` (50-232) runs one background task (`operator()`, 75-140)
against one consumer thread (`getBlock`, 142-167) and the owner's `stop()`
(169-174), all serialized by `mutex`.  Each machine step is one lock-held
region of the source; the locks are released exactly at the two condition
waits and around the device read (120-122), which is where the other thread's
steps interleave.  Condition waits may wake spuriously (as real condition
variables may), so wake steps are always enabled; a notify is therefore a
no-op on the state.

For this machine the cache map is its list of keys, kept sorted ascending as
`std::map` iterates it (the stored `char*` values play no role in the claims
the machine settles; buffers are covered by the standalone `getBlock` and
pool models).  The advance loop uses the spec-normative `advanceLoop` (the
literal source is undefined behavior there, see above). -/

/-- Program counter of the readahead task: at the top of the `while(!do_stop)`
loop (86), blocked in the backpressure wait (93), blocked in the idle wait
(103), reading the device with the lock released (120-122), or exited. -/
inductive TaskPc where
  | tTop : TaskPc
  | tBpWait : TaskPc
  | tIdleWait : TaskPc
  | tFetch : TaskPc
  | tDone : TaskPc
deriving Repr, DecidableEq

/-- Program counter of the (single) consumer: outside `getBlock`, or blocked
in the `read_block_cond` wait of line 162 for block `b`.  Because of the
line-155 shadowing, `getBlock` never leaves its loop, so there is no
post-return location. -/
inductive ConsPc where
  | cIdle : ConsPc
  | cMissWait : Int → ConsPc
deriving Repr, DecidableEq

/-- Static configuration: the `fs.hasBlock` predicate and
`fs.getSize()/fs.getBlocksize()`. -/
structure RACfg where
  occ : Int → Bool
  nblocks : Int

/-- The shared `ReadaheadThread` state (members, 220-231) plus the two thread
program counters. -/
structure RAState where
  read_blocks : List Int
  current_block : Int
  do_stop : Bool
  readahead_miss : Bool
  taskPc : TaskPc
  consPc : ConsPc
deriving Repr, DecidableEq

/-- State after the constructor (58-60): empty cache, `current_block = -1`,
flags clear, task about to enter its loop, consumer outside `getBlock`. -/
def raInit : RAState :=
  { read_blocks := [], current_block := -1, do_stop := false,
    readahead_miss := false, taskPc := TaskPc.tTop, consPc := ConsPc.cIdle }

/-- Ordered insert for the sorted key list, matching
`read_blocks[current_block] = buf` (123): `std::map::operator[]` creates the
key if absent and keeps the map sorted; on an existing key it only overwrites
the value. -/
def mapInsert : List Int → Int → List Int
  | [], k => [k]
  | x :: xs, k =>
    if k < x then k :: x :: xs
    else if k = x then x :: xs
    else x :: mapInsert xs k

/-- `clearUnusedReadahead` (184-201): erase entries while the key is below
`pBlock`, stopping at the first key that is not (the map iterates in
ascending key order). -/
def clearUnused (m : List Int) (b : Int) : List Int :=
  m.dropWhile (fun k => k < b)

/-- Advance (spec-normative, 108-116) then dispatch: with a target found the
task releases the lock and starts the device read (118-122); with
`current_block == -1` it falls back to the loop top. -/
def advancePart (cfg : RACfg) (s : RAState) : RAState :=
  let c := advanceLoop cfg.occ cfg.nblocks s.read_blocks s.current_block
  if c = -1 then { s with current_block := c, taskPc := TaskPc.tTop }
  else { s with current_block := c, taskPc := TaskPc.tFetch }

/-- Falling through the backpressure block: the stop check of line 99 (its
flag is unchanged since the caller checked it), then the idle wait guard of
line 101, then the advance. -/
def afterBp (cfg : RACfg) (s : RAState) : RAState :=
  if s.current_block = -1 then { s with taskPc := TaskPc.tIdleWait }
  else advancePart cfg s

/-- One pass of the task from the loop top (86-120, lock held): exit on
`do_stop`; enter the backpressure wait when the cache holds at least
`readahead_num_blocks` entries and the inner condition
`size > readahead_low_level_blocks && !readahead_miss` holds (88-97);
otherwise fall through to the idle guard and the advance. -/
def taskTopStep (cfg : RACfg) (s : RAState) : RAState :=
  if s.do_stop then { s with taskPc := TaskPc.tDone }
  else if readahead_num_blocks ≤ s.read_blocks.length ∧
      readahead_low_level_blocks < s.read_blocks.length ∧ s.readahead_miss = false then
    { s with taskPc := TaskPc.tBpWait }
  else afterBp cfg s

/-- Wakeup in the backpressure wait (93-95): first the `if(do_stop) break` of
line 95 (together with line 99 it exits the outer loop), then the inner
`while` condition of 90-91 is re-evaluated — back to waiting if it still
holds, otherwise fall through. -/
def taskBpWake (cfg : RACfg) (s : RAState) : RAState :=
  if s.do_stop then { s with taskPc := TaskPc.tDone }
  else if readahead_low_level_blocks < s.read_blocks.length ∧ s.readahead_miss = false then
    s
  else afterBp cfg s

/-- Wakeup in the idle wait (101-104): the loop re-tests **only**
`current_block == -1` — there is no stop check inside this wait — and waits
again while it holds; on exit, the `if(do_stop) break` of line 106, then the
advance. -/
def taskIdleWake (cfg : RACfg) (s : RAState) : RAState :=
  if s.current_block = -1 then s
  else if s.do_stop then { s with taskPc := TaskPc.tDone }
  else advancePart cfg s

/-- Completion of the device read (122-129, lock re-acquired): store the
result under the key `current_block` *as read at line 123* (the fetch result
is stored even when the read failed and returned NULL); if a miss is pending,
notify `read_block_cond` and clear `readahead_miss` — unconditionally of the
read's success. -/
def fetchDone (s : RAState) : RAState :=
  if s.readahead_miss then
    { s with
      read_blocks := mapInsert s.read_blocks s.current_block,
      readahead_miss := false,
      taskPc := TaskPc.tTop }
  else
    { s with
      read_blocks := mapInsert s.read_blocks s.current_block,
      taskPc := TaskPc.tTop }

/-- Consumer enters `getBlock b` (144-162, lock held until the wait):
`clearUnusedReadahead(b)` (146); then the loop finds `b` — if present the
entry is erased (the buffer lost to the line-155 shadow) and the re-check
misses — so either way it reaches the else branch: `readaheadFromInt(b)`
(sets `current_block := b`, notifies `start_readahead_cond`), sets
`readahead_miss`, and waits on `read_block_cond`. -/
def consCallStep (s : RAState) (b : Int) : RAState :=
  { s with
    read_blocks := (clearUnused s.read_blocks b).filter (fun k => k ≠ b),
    current_block := b,
    readahead_miss := true,
    consPc := ConsPc.cMissWait b }

/-- Consumer wakeup in the `read_block_cond` wait (162): back to the loop top
(149); an entry for `b` is erased (buffer again lost to the shadow), and the
loop re-issues the miss and waits again. -/
def consWakeStep (s : RAState) (b : Int) : RAState :=
  { s with
    read_blocks := s.read_blocks.filter (fun k => k ≠ b),
    current_block := b,
    readahead_miss := true }

/-- Interleaving labels: a task step (from whichever wait or the loop top the
task is at), completion of the in-flight device read, a consumer `getBlock`
call, a consumer wakeup, or the owner's `stop()` (169-174). -/
inductive RAOp where
  | task : RAOp
  | fetch : RAOp
  | call : Int → RAOp
  | wake : RAOp
  | stopReq : RAOp
deriving Repr, DecidableEq

/-- One interleaved step; `none` when the label is not enabled in `s`. -/
def raStep (cfg : RACfg) (op : RAOp) (s : RAState) : Option RAState :=
  match op with
  | RAOp.task =>
    match s.taskPc with
    | TaskPc.tTop => some (taskTopStep cfg s)
    | TaskPc.tBpWait => some (taskBpWake cfg s)
    | TaskPc.tIdleWait => some (taskIdleWake cfg s)
    | TaskPc.tFetch => none
    | TaskPc.tDone => none
  | RAOp.fetch =>
    match s.taskPc with
    | TaskPc.tFetch => some (fetchDone s)
    | _ => none
  | RAOp.call b =>
    match s.consPc with
    | ConsPc.cIdle => some (consCallStep s b)
    | ConsPc.cMissWait _ => none
  | RAOp.wake =>
    match s.consPc with
    | ConsPc.cMissWait b => some (consWakeStep s b)
    | ConsPc.cIdle => none
  | RAOp.stopReq => some { s with do_stop := true }

/-- Run a list of interleaved steps. -/
def raRun (cfg : RACfg) : List RAOp → RAState → Option RAState
  | [], s => some s
  | op :: ops, s =>
    match raStep cfg op s with
    | none => none
    | some s2 => raRun cfg ops s2

/-! ## Concrete instances used to evaluate the models -/

/-- A device that always reports 0 bytes read (a read that never makes
progress). -/
def devNever : DevRead := { chunk := fun _ => 0, byte := fun _ => 0 }

/-- A device delivering each block in three fragments of 5, 4 and 3 bytes. -/
def devThreeFrag : DevRead :=
  { chunk := fun k => if k = 0 then 5 else if k = 1 then 4 else 3,
    byte := fun j => j }

/-- A device delivering exactly one byte per `Read` call. -/
def devOneByte : DevRead := { chunk := fun _ => 1, byte := fun j => j }

/-- A device that satisfies every read in full on the first call. -/
def devGood : DevRead := { chunk := fun _ => 4096, byte := fun j => j }

/-- One occupied block (bitmap byte 1), block size 1, seek succeeds, but every
device read fails to make progress: the retry budget exhausts. -/
def cfgLeak : FsCfg :=
  { bitmap := [1], blocksize := 1, seekOk := fun _ => true, dev := fun _ => devNever }

/-- A fresh `Filesystem` state: empty pool, error flag clear. -/
def fs0 : FsState := { pool := initPool, has_error := false }

/-- Blocks 0, 1, 2 occupied; the device read of block 1 never makes progress
(read failure), the others succeed. -/
def cfgW1 : FsCfg :=
  { bitmap := [7], blocksize := 1, seekOk := fun _ => true,
    dev := fun i => if i = 1 then devNever else devGood }

/-- Same as `cfgW1` except block 1 is absent from the bitmap. -/
def cfgW2 : FsCfg :=
  { bitmap := [5], blocksize := 1, seekOk := fun _ => true,
    dev := fun i => if i = 1 then devNever else devGood }

/-- An all-occupied bitmap, as `ReadaheadThread` sees it through
`fs.hasBlock`. -/
def occAll : Int → Bool := fun _ => true

/-- Machine configuration with an all-occupied 100-block device. -/
def cfg0 : RACfg := { occ := occAll, nblocks := 100 }

/-- The machine state with the task blocked in the idle wait after `stop()`
was requested: reached by `raRun cfg0 [task, stopReq] raInit`. -/
def sIdleStop : RAState :=
  { read_blocks := [], current_block := -1, do_stop := true,
    readahead_miss := false, taskPc := TaskPc.tIdleWait, consPc := ConsPc.cIdle }

/-- A state with the task in the backpressure wait and stop requested (to
contrast: that wait does honor `do_stop`). -/
def sBpStop : RAState :=
  { read_blocks := [], current_block := -1, do_stop := true,
    readahead_miss := false, taskPc := TaskPc.tBpWait, consPc := ConsPc.cIdle }

/-- A state whose cache holds `readahead_num_blocks` entries, task at the loop
top (duplicate keys are irrelevant to the step equations it witnesses). -/
def sFull : RAState :=
  { read_blocks := List.replicate readahead_num_blocks 0, current_block := 3,
    do_stop := false, readahead_miss := false, taskPc := TaskPc.tTop,
    consPc := ConsPc.cMissWait 3 }

/-- `sFull` with the task already in the backpressure wait. -/
def sFullBp : RAState :=
  { sFull with taskPc := TaskPc.tBpWait }

/-- `sFullBp` after the consumer records a miss. -/
def sFullBpMiss : RAState :=
  { sFullBp with readahead_miss := true }

/-- A pool whose idle stack is at the `max_idle_buffers` bound. -/
def poolFull : PoolState :=
  { buffers := List.replicate max_idle_buffers 0, nextFresh := 64,
    freedCount := 0, outstanding := 0 }

/-- A small non-empty pool. -/
def poolThree : PoolState :=
  { buffers := [1, 2, 3], nextFresh := 3, freedCount := 0, outstanding := 0 }

/-! ## Helper lemmas -/

lemma length_dropWhile_le (p : Int → Bool) (l : List Int) :
    (l.dropWhile p).length ≤ l.length := by
  induction l with
  | nil => simp
  | cons x xs ih =>
    by_cases h : p x <;> simp [List.dropWhile, h]
    omega

lemma length_mapInsert_le (m : List Int) (k : Int) :
    (mapInsert m k).length ≤ m.length + 1 := by
  induction m with
  | nil => simp [mapInsert]
  | cons x xs ih =>
    by_cases h1 : k < x
    · simp [mapInsert, h1]
    · by_cases h2 : k = x <;> simp [mapInsert, h1, h2]
      omega

lemma self_mem_mapInsert (m : List Int) (k : Int) : k ∈ mapInsert m k := by
  induction m with
  | nil => simp [mapInsert]
  | cons x xs ih =>
    by_cases h1 : k < x
    · simp [mapInsert, h1]
    · by_cases h2 : k = x <;> simp [mapInsert, h1, h2, ih]

lemma mem_mapInsert_of_mem (m : List Int) (k a : Int) (h : a ∈ m) :
    a ∈ mapInsert m k := by
  induction m with
  | nil => simp at h
  | cons x xs ih =>
    by_cases h1 : k < x
    · simp only [mapInsert, if_pos h1]
      exact List.mem_cons_of_mem _ h
    · by_cases h2 : k = x
      · simp only [mapInsert, if_neg h1, if_pos h2]
        exact h
      · simp only [mapInsert, if_neg h1, if_neg h2]
        rcases List.mem_cons.mp h with h3 | h3
        · exact h3 ▸ List.mem_cons_self _ _
        · exact List.mem_cons_of_mem _ (ih h3)

lemma not_mem_filter_ne (m : List Int) (b : Int) :
    b ∉ m.filter (fun k => k ≠ b) := by
  simp [List.mem_filter]

lemma length_filter_ne_lt (m : List Int) (b : Int) (h : b ∈ m) :
    (m.filter (fun k => k ≠ b)).length < m.length := by
  induction m with
  | nil => simp at h
  | cons x xs ih =>
    by_cases hx : x = b
    · subst hx
      simp only [List.filter_cons]
      have h0 : ¬ (decide (x ≠ x) = true) := by simp
      rw [if_neg h0]
      exact Nat.lt_succ_of_le (List.length_filter_le _ _)
    · have h1 : b ∈ xs := by
        rcases List.mem_cons.mp h with h2 | h2
        · exact absurd h2.symm hx
        · exact h2
      simp only [List.filter_cons]
      by_cases hd : decide (x ≠ b) = true
      · rw [if_pos hd]
        simpa using Nat.succ_lt_succ (ih h1)
      · rw [if_neg hd]
        exact Nat.lt_succ_of_lt (ih h1)

lemma advanceLoop_not_mem (occ : Int → Bool) (n : Int) (m : List Int) (c : Int)
    (h : c ∉ m) : advanceLoop occ n m c = c := by
  rw [advanceLoop]
  simp [h]

lemma applyPoolOp_len_le (s : PoolState) (op : PoolOp)
    (h : s.buffers.length ≤ max_idle_buffers) :
    (applyPoolOp s op).buffers.length ≤ max_idle_buffers := by
  cases op with
  | acquire =>
    simp only [applyPoolOp, getBuffer]
    cases hl : s.buffers.getLast? <;> simp only []
    · exact h
    · simp only [List.length_dropLast]
      omega
  | release b =>
    simp only [applyPoolOp, releaseBuffer]
    by_cases hlt : s.buffers.length < max_idle_buffers
    · rw [if_pos hlt]
      simp only [List.length_append, List.length_singleton]
      omega
    · rw [if_neg hlt]
      exact h

lemma runPoolOps_len_le (ops : List PoolOp) (s : PoolState)
    (h : s.buffers.length ≤ max_idle_buffers) :
    (runPoolOps ops s).buffers.length ≤ max_idle_buffers := by
  induction ops generalizing s with
  | nil => exact h
  | cons op ops ih =>
    simp only [runPoolOps, List.foldl_cons] at ih ⊢
    exact ih (applyPoolOp s op) (applyPoolOp_len_le s op h)

lemma getBlockIter_ret (sv : Option Nat) (b : Int) :
    ∀ (n : Nat) (r : GetBlockRound), (getBlockIter sv b n r).ret = r.ret := by
  intro n
  induction n with
  | zero => intro r; rfl
  | succ k ih =>
    intro r
    rw [getBlockIter, ih]
    cases h : r.m.lookup b <;> simp [getBlockBody, h]

lemma lookup_mem : ∀ (m : List (Int × Option Nat)) (b : Int) (v : Option Nat),
    m.lookup b = some v → (b, v) ∈ m := by
  intro m
  induction m with
  | nil => intro b v h; simp [List.lookup] at h
  | cons kv t ih =>
    intro b v h
    obtain ⟨k, w⟩ := kv
    by_cases hk : (b == k) = true
    · rw [List.lookup, hk] at h
      have hbk : b = k := eq_of_beq hk
      have hwv : w = v := by injection h
      subst hbk
      subst hwv
      exact List.mem_cons_self _ _
    · rw [List.lookup, Bool.eq_false_iff.mpr hk] at h
      exact List.mem_cons_of_mem _ (ih b v h)

lemma iterAssigned_none_ret (b : Int) :
    ∀ (n : Nat) (r : GetBlockRound), r.ret = none → (∀ kv ∈ r.m, kv.2 = none) →
      (getBlockIterAssigned none b n r).ret = none := by
  intro n
  induction n with
  | zero =>
    intro r h _
    exact h
  | succ k ih =>
    intro r h hm
    rw [getBlockIterAssigned]
    cases hl : r.m.lookup b with
    | none =>
      apply ih
      · simp [getBlockBodyAssigned, hl, h]
      · intro kv hkv
        simp only [getBlockBodyAssigned, hl] at hkv
        rcases List.mem_cons.mp hkv with h2 | h2
        · rw [h2]
        · exact hm kv h2
    | some v =>
      have hv : v = none := hm (b, v) (lookup_mem r.m b v hl)
      apply ih
      · simp [getBlockBodyAssigned, hl, hv]
      · intro kv hkv
        simp only [getBlockBodyAssigned, hl] at hkv
        exact hm kv (List.mem_of_mem_filter hkv)

lemma buggyAdvanceSpin_none (occ : Int → Bool) (n : Int) :
    ∀ (fuel : Nat) (c : Int), buggyAdvanceSpin occ n fuel c = none := by
  intro fuel
  induction fuel with
  | zero => intro c; rfl
  | succ f ih =>
    intro c
    rw [buggyAdvanceSpin]
    exact ih _

lemma sIdleStop_self_loop :
    ∀ n : Nat, raRun cfg0 (List.replicate n RAOp.task) sIdleStop = some sIdleStop := by
  intro n
  induction n with
  | zero => rfl
  | succ k ih =>
    have h1 : raStep cfg0 RAOp.task sIdleStop = some sIdleStop := by decide
    rw [List.replicate_succ, raRun, h1]
    exact ih

lemma readFromDevLoop_calls_le (d : DevRead) (bsize : Nat) :
    ∀ (t k : Nat) (buf : List Nat),
      (readFromDevLoop d bsize k buf t).2.1 ≤ k + t + 1 := by
  intro t
  induction t with
  | zero =>
    intro k buf
    simp only [readFromDevLoop]
    by_cases h : buf.length < bsize
    · rw [if_pos h]
    · rw [if_neg h]
      simp
  | succ t ih =>
    intro k buf
    simp only [readFromDevLoop]
    by_cases h : buf.length < bsize
    · rw [if_pos h]
      have := ih (k + 1) (readCall d k buf (bsize - buf.length))
      omega
    · rw [if_neg h]
      simp
      omega

lemma readCall_length (d : DevRead) (k : Nat) (buf : List Nat) (w : Nat) :
    (readCall d k buf w).length = buf.length + min (d.chunk k) w := by
  simp [readCall]

lemma readCall_aligned (d : DevRead) (k : Nat) (buf : List Nat) (w : Nat)
    (h : buf = (List.range buf.length).map d.byte) :
    readCall d k buf w = (List.range (readCall d k buf w).length).map d.byte := by
  rw [readCall_length, List.range_add, List.map_append, List.map_map]
  simp only [readCall]
  congr 1

lemma readFromDevLoop_success (d : DevRead) (bsize : Nat) :
    ∀ (t k : Nat) (buf : List Nat),
      buf = (List.range buf.length).map d.byte → buf.length ≤ bsize →
      (readFromDevLoop d bsize k buf t).1 = true →
      (readFromDevLoop d bsize k buf t).2.2 = (List.range bsize).map d.byte := by
  intro t
  induction t with
  | zero =>
    intro k buf hpre hlen hs
    simp only [readFromDevLoop] at hs ⊢
    by_cases h : buf.length < bsize
    · rw [if_pos h] at hs
      simp at hs
    · rw [if_neg h] at hs ⊢
      have hb : buf.length = bsize := le_antisymm hlen (le_of_not_lt h)
      rw [← hb]
      exact hpre
  | succ t ih =>
    intro k buf hpre hlen hs
    simp only [readFromDevLoop] at hs ⊢
    by_cases h : buf.length < bsize
    · rw [if_pos h] at hs ⊢
      refine ih (k + 1) _ (readCall_aligned d k buf _ hpre) ?_ hs
      rw [readCall_length]
      have := Nat.min_le_right (d.chunk k) (bsize - buf.length)
      omega
    · rw [if_neg h] at hs ⊢
      have hb : buf.length = bsize := le_antisymm hlen (le_of_not_lt h)
      rw [← hb]
      exact hpre

lemma readBlockDirect_cases (cfg : FsCfg) (s : FsState) (b : Int) :
    readBlockDirect cfg s b = rbStep (rbOutcome cfg b) s := by
  unfold readBlockDirect rbOutcome rbStep
  cases hb : hasBlockM cfg.bitmap b with
  | none => rfl
  | some v =>
    cases v with
    | false => rfl
    | true =>
      by_cases hs : cfg.seekOk b = false
      · simp only [if_pos hs]
      · simp only [if_neg hs]
        by_cases hr : (readFromDev (cfg.dev b) cfg.blocksize).1 = true
        · simp only [if_pos hr]
        · simp only [if_neg hr]

lemma rbStep_none (o : RBOutcome) (s : FsState) (ho : o ≠ RBOutcome.ub)
    (hs : o ≠ RBOutcome.success) :
    ∃ s2, rbStep o s = some ((none : Option Nat), s2) := by
  cases o with
  | ub => exact absurd rfl ho
  | success => exact absurd rfl hs
  | absent => exact ⟨s, rfl⟩
  | seekFail => exact ⟨_, rfl⟩
  | readFail => exact ⟨_, rfl⟩

lemma readBlocksGo_succ_none (cfg : FsCfg) (n : Nat) (i : Int) (acc : RBAcc)
    (s2 : FsState) (h : readBlockDirect cfg acc.fsSt i = some (none, s2)) :
    readBlocksGo cfg (n + 1) i acc = readBlocksGo cfg n (i + 1) { acc with fsSt := s2 } := by
  simp only [readBlocksGo, h]

lemma readBlocksGo_succ_some (cfg : FsCfg) (n : Nat) (i : Int) (acc : RBAcc)
    (buf : Nat) (s2 : FsState)
    (h : readBlockDirect cfg acc.fsSt i = some (some buf, s2)) :
    readBlocksGo cfg (n + 1) i acc =
      readBlocksGo cfg n (i + 1)
        { ret := acc.ret ++ [i], currbuf := acc.currbuf + 1,
          writes := acc.writes ++ [(acc.currbuf, i)],
          fsSt := { s2 with pool := releaseBuffer s2.pool buf } } := by
  simp only [readBlocksGo, h]

lemma shiftPred (P : Int → Prop) (i : Int) (n : Nat)
    (h : ∀ k < n + 1, P (i + k)) : ∀ k < n, P ((i + 1) + k) := by
  intro k hk
  have h2 := h (k + 1) (by omega)
  have hidx : (i + ((k + 1 : Nat) : Int)) = (i + 1) + (k : Nat) := by
    push_cast
    ring
  rw [hidx] at h2
  exact h2

lemma readBlocksGo_equiv (cfg1 cfg2 : FsCfg) :
    ∀ (n : Nat) (i : Int) (acc1 acc2 : RBAcc),
      acc1.ret = acc2.ret → acc1.currbuf = acc2.currbuf → acc1.writes = acc2.writes →
      (∀ k < n, (rbOutcome cfg1 (i + k) = RBOutcome.success ↔
        rbOutcome cfg2 (i + k) = RBOutcome.success)) →
      (∀ k < n, rbOutcome cfg1 (i + k) ≠ RBOutcome.ub) →
      (∀ k < n, rbOutcome cfg2 (i + k) ≠ RBOutcome.ub) →
      ∃ b1 b2, readBlocksGo cfg1 n i acc1 = some b1 ∧ readBlocksGo cfg2 n i acc2 = some b2 ∧
        b1.ret = b2.ret ∧ b1.currbuf = b2.currbuf ∧ b1.writes = b2.writes := by
  intro n
  induction n with
  | zero =>
    intro i acc1 acc2 h1 h2 h3 _ _ _
    exact ⟨acc1, acc2, rfl, rfl, h1, h2, h3⟩
  | succ n ih =>
    intro i acc1 acc2 h1 h2 h3 hiff hub1 hub2
    have hk0 : (0 : Nat) < n + 1 := Nat.succ_pos n
    have hiff0 : rbOutcome cfg1 i = RBOutcome.success ↔
        rbOutcome cfg2 i = RBOutcome.success := by
      have := hiff 0 hk0
      simpa using this
    have ho1 : rbOutcome cfg1 i ≠ RBOutcome.ub := by
      have := hub1 0 hk0
      simpa using this
    have ho2 : rbOutcome cfg2 i ≠ RBOutcome.ub := by
      have := hub2 0 hk0
      simpa using this
    by_cases hsucc : rbOutcome cfg1 i = RBOutcome.success
    · have hsucc2 : rbOutcome cfg2 i = RBOutcome.success := hiff0.mp hsucc
      have e1 : readBlockDirect cfg1 acc1.fsSt i =
          some (some (getBuffer acc1.fsSt.pool).1,
            { acc1.fsSt with pool := (getBuffer acc1.fsSt.pool).2 }) := by
        rw [readBlockDirect_cases, hsucc]
        rfl
      have e2 : readBlockDirect cfg2 acc2.fsSt i =
          some (some (getBuffer acc2.fsSt.pool).1,
            { acc2.fsSt with pool := (getBuffer acc2.fsSt.pool).2 }) := by
        rw [readBlockDirect_cases, hsucc2]
        rfl
      rw [readBlocksGo_succ_some cfg1 n i acc1 _ _ e1,
        readBlocksGo_succ_some cfg2 n i acc2 _ _ e2]
      exact ih (i + 1) _ _ (by simp [h1]) (by simp [h2]) (by simp [h2, h3])
        (shiftPred (fun x => rbOutcome cfg1 x = RBOutcome.success ↔
          rbOutcome cfg2 x = RBOutcome.success) i n hiff)
        (shiftPred (fun x => rbOutcome cfg1 x ≠ RBOutcome.ub) i n hub1)
        (shiftPred (fun x => rbOutcome cfg2 x ≠ RBOutcome.ub) i n hub2)
    · have hsucc2 : rbOutcome cfg2 i ≠ RBOutcome.success := fun h => hsucc (hiff0.mpr h)
      obtain ⟨s1, e1⟩ := rbStep_none (rbOutcome cfg1 i) acc1.fsSt ho1 hsucc
      obtain ⟨s2, e2⟩ := rbStep_none (rbOutcome cfg2 i) acc2.fsSt ho2 hsucc2
      rw [readBlocksGo_succ_none cfg1 n i acc1 s1 (by rw [readBlockDirect_cases]; exact e1),
        readBlocksGo_succ_none cfg2 n i acc2 s2 (by rw [readBlockDirect_cases]; exact e2)]
      exact ih (i + 1) _ _ h1 h2 h3
        (shiftPred (fun x => rbOutcome cfg1 x = RBOutcome.success ↔
          rbOutcome cfg2 x = RBOutcome.success) i n hiff)
        (shiftPred (fun x => rbOutcome cfg1 x ≠ RBOutcome.ub) i n hub1)
        (shiftPred (fun x => rbOutcome cfg2 x ≠ RBOutcome.ub) i n hub2)

lemma readBlockDirect_error_mono (cfg : FsCfg) (s : FsState) (b : Int)
    (r : Option Nat) (s2 : FsState)
    (h : readBlockDirect cfg s b = some (r, s2)) (he : s.has_error = true) :
    s2.has_error = true := by
  rw [readBlockDirect_cases] at h
  cases ho : rbOutcome cfg b <;> rw [ho] at h
  · exact absurd h (by simp [rbStep])
  · simp only [rbStep, Option.some.injEq, Prod.mk.injEq] at h
    rw [← h.2]
    exact he
  · simp only [rbStep, Option.some.injEq, Prod.mk.injEq] at h
    rw [← h.2]
  · simp only [rbStep, Option.some.injEq, Prod.mk.injEq] at h
    rw [← h.2]
  · simp only [rbStep, Option.some.injEq, Prod.mk.injEq] at h
    rw [← h.2]
    exact he

lemma readBlocksGo_error_mono (cfg : FsCfg) :
    ∀ (n : Nat) (i : Int) (acc : RBAcc) (b1 : RBAcc),
      readBlocksGo cfg n i acc = some b1 →
      acc.fsSt.has_error = true → b1.fsSt.has_error = true := by
  intro n
  induction n with
  | zero =>
    intro i acc b1 h he
    simp only [readBlocksGo, Option.some.injEq] at h
    rw [← h]
    exact he
  | succ n ih =>
    intro i acc b1 h he
    cases hd : readBlockDirect cfg acc.fsSt i with
    | none =>
      rw [readBlocksGo, hd] at h
      exact absurd h (by simp)
    | some rs =>
      obtain ⟨r, s2⟩ := rs
      have he2 : s2.has_error = true := readBlockDirect_error_mono cfg acc.fsSt i r s2 hd he
      cases r with
      | none =>
        rw [readBlocksGo_succ_none cfg n i acc s2 hd] at h
        exact ih (i + 1) _ b1 h he2
      | some buf =>
        rw [readBlocksGo_succ_some cfg n i acc buf s2 hd] at h
        exact ih (i + 1) _ b1 h he2

lemma readBlocksGo_error_set (cfg : FsCfg) :
    ∀ (n : Nat) (i : Int) (acc : RBAcc) (b1 : RBAcc) (k : Nat), k < n →
      rbOutcome cfg (i + k) = RBOutcome.readFail →
      readBlocksGo cfg n i acc = some b1 → b1.fsSt.has_error = true := by
  intro n
  induction n with
  | zero =>
    intro i acc b1 k hk
    omega
  | succ n ih =>
    intro i acc b1 k hk ho h
    cases k with
    | zero =>
      have ho0 : rbOutcome cfg i = RBOutcome.readFail := by simpa using ho
      have hd : readBlockDirect cfg acc.fsSt i =
          some (none,
            { acc.fsSt with
              pool := (getBuffer acc.fsSt.pool).2,
              has_error := true }) := by
        rw [readBlockDirect_cases, ho0]
        rfl
      rw [readBlocksGo_succ_none cfg n i acc _ hd] at h
      exact readBlocksGo_error_mono cfg n (i + 1) _ b1 h rfl
    | succ j =>
      have ho2 : rbOutcome cfg ((i + 1) + (j : Nat)) = RBOutcome.readFail := by
        have hidx : (i + ((j + 1 : Nat) : Int)) = (i + 1) + (j : Nat) := by
          push_cast
          ring
        rw [← hidx]
        exact ho
      cases hd : readBlockDirect cfg acc.fsSt i with
      | none =>
        rw [readBlocksGo, hd] at h
        exact absurd h (by simp)
      | some rs =>
        obtain ⟨r, s2⟩ := rs
        cases r with
        | none =>
          rw [readBlocksGo_succ_none cfg n i acc s2 hd] at h
          exact ih (i + 1) _ b1 j (by omega) ho2 h
        | some buf =>
          rw [readBlocksGo_succ_some cfg n i acc buf s2 hd] at h
          exact ih (i + 1) _ b1 j (by omega) ho2 h

/-! ## Invariant of the readahead machine

The inductive invariant strengthening the cache bound: besides the bound
itself it tracks that one more entry always fits while the task is about to
insert (at `tFetch`, reached only after the backpressure check) or idle, that
a recorded miss implies the consumer is parked on exactly `current_block`
which is not cached, that the consumer being outside `getBlock` implies the
quiescent initial configuration (the task can only have been directed by a
`getBlock` call), and that a serviced (miss-cleared) parked consumer's block
is present in the cache until the consumer itself erases it. -/
def RAInv (s : RAState) : Prop :=
  s.read_blocks.length ≤ readahead_num_blocks ∧
  (s.taskPc = TaskPc.tFetch → s.read_blocks.length + 1 ≤ readahead_num_blocks) ∧
  (s.readahead_miss = true → s.read_blocks.length + 1 ≤ readahead_num_blocks) ∧
  (s.readahead_miss = true →
    s.consPc = ConsPc.cMissWait s.current_block ∧ s.current_block ∉ s.read_blocks) ∧
  (s.taskPc = TaskPc.tIdleWait → s.read_blocks.length + 1 ≤ readahead_num_blocks) ∧
  (s.consPc = ConsPc.cIdle →
    s.read_blocks = [] ∧ s.current_block = -1 ∧ s.readahead_miss = false ∧
      s.taskPc ≠ TaskPc.tFetch) ∧
  (∀ b, s.consPc = ConsPc.cMissWait b → s.readahead_miss = false → b ∈ s.read_blocks)

lemma inv_advancePart (cfg : RACfg) (s : RAState) (h : RAInv s)
    (hcur : s.current_block ≠ -1)
    (hlen : s.read_blocks.length + 1 ≤ readahead_num_blocks) :
    RAInv (advancePart cfg s) := by
  obtain ⟨i1, i2, i3, i4, i5, i6, i7⟩ := h
  unfold advancePart RAInv
  by_cases hm : s.readahead_miss = true
  · obtain ⟨hc, hnm⟩ := i4 hm
    have hadv : advanceLoop cfg.occ cfg.nblocks s.read_blocks s.current_block =
        s.current_block := advanceLoop_not_mem _ _ _ _ hnm
    rw [hadv, if_neg hcur]
    exact ⟨i1, fun _ => hlen, fun _ => i3 hm, fun _ => ⟨hc, hnm⟩,
      fun hpc => by simp at hpc, fun hci => absurd (i6 hci).2.1 hcur,
      fun b hb hmf => i7 b hb hmf⟩
  · by_cases hz : advanceLoop cfg.occ cfg.nblocks s.read_blocks s.current_block = -1
    · rw [if_pos hz]
      exact ⟨i1, fun hpc => by simp at hpc, fun hmm => absurd hmm hm,
        fun hmm => absurd hmm hm, fun hpc => by simp at hpc,
        fun hci => absurd (i6 hci).2.1 hcur, fun b hb hmf => i7 b hb hmf⟩
    · rw [if_neg hz]
      exact ⟨i1, fun _ => hlen, fun hmm => absurd hmm hm,
        fun hmm => absurd hmm hm, fun hpc => by simp at hpc,
        fun hci => absurd (i6 hci).2.1 hcur, fun b hb hmf => i7 b hb hmf⟩

lemma inv_afterBp (cfg : RACfg) (s : RAState) (h : RAInv s)
    (hlen : s.read_blocks.length + 1 ≤ readahead_num_blocks) :
    RAInv (afterBp cfg s) := by
  unfold afterBp
  by_cases hz : s.current_block = -1
  · rw [if_pos hz]
    obtain ⟨i1, i2, i3, i4, i5, i6, i7⟩ := h
    exact ⟨i1, fun hpc => by simp at hpc, i3, i4, fun _ => hlen,
      fun hci => ⟨(i6 hci).1, (i6 hci).2.1, (i6 hci).2.2.1, by simp⟩,
      i7⟩
  · rw [if_neg hz]
    exact inv_advancePart cfg s h hz hlen

lemma inv_taskTopStep (cfg : RACfg) (s : RAState) (h : RAInv s) :
    RAInv (taskTopStep cfg s) := by
  obtain ⟨i1, i2, i3, i4, i5, i6, i7⟩ := h
  unfold taskTopStep
  by_cases hd : s.do_stop = true
  · rw [if_pos hd]
    exact ⟨i1, fun hpc => by simp at hpc, i3, i4, fun hpc => by simp at hpc,
      fun hci => ⟨(i6 hci).1, (i6 hci).2.1, (i6 hci).2.2.1, by simp⟩, i7⟩
  · rw [if_neg hd]
    by_cases hb : readahead_num_blocks ≤ s.read_blocks.length ∧
        readahead_low_level_blocks < s.read_blocks.length ∧ s.readahead_miss = false
    · rw [if_pos hb]
      exact ⟨i1, fun hpc => by simp at hpc, i3, i4, fun hpc => by simp at hpc,
        fun hci => ⟨(i6 hci).1, (i6 hci).2.1, (i6 hci).2.2.1, by simp⟩, i7⟩
    · rw [if_neg hb]
      apply inv_afterBp cfg s ⟨i1, i2, i3, i4, i5, i6, i7⟩
      by_cases hm : s.readahead_miss = true
      · exact i3 hm
      · have hmf : s.readahead_miss = false := by
          revert hm
          cases s.readahead_miss <;> simp
        rw [hmf] at hb
        have hc1 : readahead_num_blocks = 5120 := rfl
        have hc2 : readahead_low_level_blocks = 2560 := rfl
        simp only [and_true] at hb
        omega

lemma inv_taskBpWake (cfg : RACfg) (s : RAState) (h : RAInv s) :
    RAInv (taskBpWake cfg s) := by
  obtain ⟨i1, i2, i3, i4, i5, i6, i7⟩ := h
  unfold taskBpWake
  by_cases hd : s.do_stop = true
  · rw [if_pos hd]
    exact ⟨i1, fun hpc => by simp at hpc, i3, i4, fun hpc => by simp at hpc,
      fun hci => ⟨(i6 hci).1, (i6 hci).2.1, (i6 hci).2.2.1, by simp⟩, i7⟩
  · rw [if_neg hd]
    by_cases hb : readahead_low_level_blocks < s.read_blocks.length ∧
        s.readahead_miss = false
    · rw [if_pos hb]
      exact ⟨i1, i2, i3, i4, i5, i6, i7⟩
    · rw [if_neg hb]
      apply inv_afterBp cfg s ⟨i1, i2, i3, i4, i5, i6, i7⟩
      by_cases hm : s.readahead_miss = true
      · exact i3 hm
      · have hmf : s.readahead_miss = false := by
          revert hm
          cases s.readahead_miss <;> simp
        rw [hmf] at hb
        have hc1 : readahead_num_blocks = 5120 := rfl
        have hc2 : readahead_low_level_blocks = 2560 := rfl
        simp only [and_true] at hb
        omega

lemma inv_taskIdleWake (cfg : RACfg) (s : RAState) (h : RAInv s)
    (hpc : s.taskPc = TaskPc.tIdleWait) : RAInv (taskIdleWake cfg s) := by
  unfold taskIdleWake
  by_cases hz : s.current_block = -1
  · rw [if_pos hz]
    exact h
  · rw [if_neg hz]
    obtain ⟨i1, i2, i3, i4, i5, i6, i7⟩ := h
    by_cases hd : s.do_stop = true
    · rw [if_pos hd]
      exact ⟨i1, fun hpc2 => by simp at hpc2, i3, i4, fun hpc2 => by simp at hpc2,
        fun hci => ⟨(i6 hci).1, (i6 hci).2.1, (i6 hci).2.2.1, by simp⟩, i7⟩
    · rw [if_neg hd]
      exact inv_advancePart cfg s ⟨i1, i2, i3, i4, i5, i6, i7⟩ hz (i5 hpc)

lemma inv_fetchDone (s : RAState) (h : RAInv s) (hpc : s.taskPc = TaskPc.tFetch) :
    RAInv (fetchDone s) := by
  obtain ⟨i1, i2, i3, i4, i5, i6, i7⟩ := h
  have hlen2 : (mapInsert s.read_blocks s.current_block).length ≤ readahead_num_blocks := by
    have ha := length_mapInsert_le s.read_blocks s.current_block
    have hb := i2 hpc
    omega
  unfold fetchDone
  by_cases hm : s.readahead_miss = true
  · rw [if_pos hm]
    obtain ⟨hc, hnm⟩ := i4 hm
    refine ⟨hlen2, fun hpc2 => by simp at hpc2, fun hmm => by simp at hmm,
      fun hmm => by simp at hmm, fun hpc2 => by simp at hpc2,
      fun hci => absurd hpc (i6 hci).2.2.2, ?_⟩
    intro b hb _
    rw [hc] at hb
    injection hb with hbc
    rw [← hbc]
    exact self_mem_mapInsert s.read_blocks s.current_block
  · rw [if_neg hm]
    exact ⟨hlen2, fun hpc2 => by simp at hpc2, fun hmm => absurd hmm hm,
      fun hmm => absurd hmm hm, fun hpc2 => by simp at hpc2,
      fun hci => absurd hpc (i6 hci).2.2.2,
      fun b hb hmf => mem_mapInsert_of_mem _ _ _ (i7 b hb hmf)⟩

lemma inv_consCall (s : RAState) (b : Int) (h : RAInv s)
    (hpc : s.consPc = ConsPc.cIdle) : RAInv (consCallStep s b) := by
  obtain ⟨i1, i2, i3, i4, i5, i6, i7⟩ := h
  obtain ⟨hmap, hcur, hmiss, hnf⟩ := i6 hpc
  unfold consCallStep
  have hng : ((clearUnused s.read_blocks b).filter (fun k => k ≠ b)).length = 0 := by
    rw [hmap]
    rfl
  refine ⟨by rw [hng]; exact Nat.zero_le _, fun hpc2 => absurd hpc2 hnf,
    fun _ => by rw [hng]; decide, fun _ => ⟨rfl, ?_⟩,
    fun _ => by rw [hng]; decide, fun hci => by simp at hci,
    fun b2 hb2 hmf => by simp at hmf⟩
  rw [hmap]
  simp [clearUnused]

lemma inv_consWake (s : RAState) (b : Int) (h : RAInv s)
    (hpc : s.consPc = ConsPc.cMissWait b) : RAInv (consWakeStep s b) := by
  obtain ⟨i1, i2, i3, i4, i5, i6, i7⟩ := h
  have hfle : (s.read_blocks.filter (fun k => k ≠ b)).length ≤ s.read_blocks.length :=
    List.length_filter_le _ _
  unfold consWakeStep
  refine ⟨le_trans hfle i1, fun hpc2 => ?_, fun _ => ?_, fun _ => ⟨hpc, ?_⟩,
    fun hpc2 => ?_, fun hci => by rw [hpc] at hci; simp at hci,
    fun b2 hb2 hmf => by simp at hmf⟩
  · show (s.read_blocks.filter (fun k => k ≠ b)).length + 1 ≤ readahead_num_blocks
    have := i2 hpc2
    omega
  · show (s.read_blocks.filter (fun k => k ≠ b)).length + 1 ≤ readahead_num_blocks
    by_cases hm : s.readahead_miss = true
    · have := i3 hm
      omega
    · have hmf : s.readahead_miss = false := by
        revert hm
        cases s.readahead_miss <;> simp
      have hbm : b ∈ s.read_blocks := i7 b hpc hmf
      have := length_filter_ne_lt s.read_blocks b hbm
      omega
  · exact not_mem_filter_ne s.read_blocks b
  · show (s.read_blocks.filter (fun k => k ≠ b)).length + 1 ≤ readahead_num_blocks
    have := i5 hpc2
    omega

lemma inv_stopReq (s : RAState) (h : RAInv s) : RAInv { s with do_stop := true } := h

lemma raStep_inv (cfg : RACfg) (op : RAOp) (s s2 : RAState) (h : RAInv s)
    (hs : raStep cfg op s = some s2) : RAInv s2 := by
  cases op with
  | task =>
    unfold raStep at hs
    cases hpc : s.taskPc <;> simp only [hpc] at hs
    · injection hs with hs2
      rw [← hs2]
      exact inv_taskTopStep cfg s h
    · injection hs with hs2
      rw [← hs2]
      exact inv_taskBpWake cfg s h
    · injection hs with hs2
      rw [← hs2]
      exact inv_taskIdleWake cfg s h hpc
    · exact Option.noConfusion hs
    · exact Option.noConfusion hs
  | fetch =>
    unfold raStep at hs
    cases hpc : s.taskPc <;> simp only [hpc] at hs
    · exact Option.noConfusion hs
    · exact Option.noConfusion hs
    · exact Option.noConfusion hs
    · injection hs with hs2
      rw [← hs2]
      exact inv_fetchDone s h hpc
    · exact Option.noConfusion hs
  | call b =>
    unfold raStep at hs
    cases hpc : s.consPc <;> simp only [hpc] at hs
    · injection hs with hs2
      rw [← hs2]
      exact inv_consCall s b h hpc
    · exact Option.noConfusion hs
  | wake =>
    unfold raStep at hs
    cases hpc : s.consPc <;> simp only [hpc] at hs
    · exact Option.noConfusion hs
    · injection hs with hs2
      rw [← hs2]
      exact inv_consWake s _ h hpc
  | stopReq =>
    unfold raStep at hs
    injection hs with hs2
    rw [← hs2]
    exact inv_stopReq s h

lemma raRun_inv (cfg : RACfg) :
    ∀ (ops : List RAOp) (s s2 : RAState), RAInv s → raRun cfg ops s = some s2 → RAInv s2 := by
  intro ops
  induction ops with
  | nil =>
    intro s s2 h hr
    rw [raRun, Option.some.injEq] at hr
    rw [← hr]
    exact h
  | cons op ops ih =>
    intro s s2 h hr
    rw [raRun] at hr
    cases hstep : raStep cfg op s with
    | none =>
      rw [hstep] at hr
      exact absurd hr (by simp)
    | some s1 =>
      rw [hstep] at hr
      exact ih s1 s2 (raStep_inv cfg op s s1 h hstep) hr

lemma raInit_inv : RAInv raInit := by
  unfold RAInv
  refine ⟨by simp [raInit], ?_, ?_, ?_, ?_, ?_, ?_⟩
  · intro hpc
    simp [raInit] at hpc
  · intro hm
    simp [raInit] at hm
  · intro hm
    simp [raInit] at hm
  · intro hpc
    simp [raInit] at hpc
  · intro _
    exact ⟨rfl, rfl, rfl, by simp [raInit]⟩
  · intro b hb
    simp [raInit] at hb

lemma afterBp_pc (cfg : RACfg) (s : RAState) :
    (afterBp cfg s).taskPc ≠ TaskPc.tBpWait := by
  unfold afterBp advancePart
  by_cases hz : s.current_block = -1
  · rw [if_pos hz]
    simp
  · rw [if_neg hz]
    by_cases ha : advanceLoop cfg.occ cfg.nblocks s.read_blocks s.current_block = -1
    · rw [if_pos ha]
      simp
    · rw [if_neg ha]
      simp

/-! ## Claim theorems -/

/-- Claim C8 (confirmed): after any sequence of acquire/release calls from the
initial pool the idle count never exceeds 64; a release performed at idle
count 64 frees the buffer (ghost `freedCount` grows) without growing the
stack; an acquire after a pooled release returns that very buffer, and in
general an acquire pops the last (most recently pushed) idle buffer. -/
theorem c8_buffer_pool :
    (∀ ops : List PoolOp, (runPoolOps ops initPool).buffers.length ≤ max_idle_buffers) ∧
    (∀ (s : PoolState) (b : Nat), s.buffers.length = max_idle_buffers →
      releaseBuffer s b =
        { s with freedCount := s.freedCount + 1, outstanding := s.outstanding - 1 }) ∧
    (∀ (s : PoolState) (b : Nat), s.buffers.length < max_idle_buffers →
      (getBuffer (releaseBuffer s b)).1 = b) ∧
    (∀ (s : PoolState) (h : s.buffers ≠ []), (getBuffer s).1 = s.buffers.getLast h) := by
  refine ⟨fun ops => runPoolOps_len_le ops initPool (by simp [initPool]), ?_, ?_, ?_⟩
  · intro s b h
    simp only [releaseBuffer]
    rw [if_neg (by omega)]
  · intro s b h
    simp only [releaseBuffer]
    rw [if_pos h]
    simp [getBuffer, List.getLast?_concat]
  · intro s h
    simp [getBuffer, List.getLast?_eq_getLast s.buffers h]

/-- Witness for C8 at concrete pools. -/
theorem c8_buffer_pool_witness :
    (runPoolOps [PoolOp.acquire, PoolOp.release 5] initPool).buffers.length ≤
      max_idle_buffers ∧
    releaseBuffer poolFull 9 =
      { poolFull with
        freedCount := poolFull.freedCount + 1,
        outstanding := poolFull.outstanding - 1 } ∧
    (getBuffer (releaseBuffer poolThree 7)).1 = 7 ∧
    (getBuffer poolThree).1 = poolThree.buffers.getLast (by decide) :=
  ⟨c8_buffer_pool.1 [PoolOp.acquire, PoolOp.release 5],
   c8_buffer_pool.2.1 poolFull 9 (by decide),
   c8_buffer_pool.2.2.1 poolThree 7 (by decide),
   c8_buffer_pool.2.2.2 poolThree (by decide)⟩

/-- Claim C9 (code bug): `hasBlock` has no range check — on the one-byte
bitmap `[129]` (bits 0 and 7 set, 8 addressable blocks) the in-range queries
return exactly the stored bit, but index 8 dereferences `bitmap[1]` past the
end of the buffer and a negative index computes a byte index/shift that is
likewise undefined; the embedding returns `none` for exactly those
out-of-bounds accesses, where the claim demands a distinguishable `false`
*without* the out-of-bounds read. -/
theorem c9_hasBlock_eval :
    hasBlockM [129] 0 = some true ∧ hasBlockM [129] 1 = some false ∧
    hasBlockM [129] 7 = some true ∧ hasBlockM [129] 8 = none ∧
    hasBlockM [129] (-1) = none := by
  decide

/-- Claim C4 (code bug): on the direct path, with block 0 occupied, the seek
succeeding and the device read exhausting its retries, `readBlock` returns
NULL and sets `has_error`, but the buffer acquired at line 327 is never
released: the pool's idle stack is unchanged and the ghost outstanding count
has grown from 0 to 1 — a leak. -/
theorem c4_read_failure_leaks_buffer :
    readBlockDirect cfgLeak fs0 0 =
      some (none,
        { pool := { buffers := [], nextFresh := 1, freedCount := 0, outstanding := 1 },
          has_error := true }) ∧
    fs0.pool.outstanding = 0 := by
  exact ⟨rfl, rfl⟩

/-- Claim C1 (code bug): `getBlock` with block 7 cached does erase the entry,
but line 155 assigns a shadowed local, so the outer `ret` of line 148 stays
NULL — the buffer (42) is dropped, not returned — and in general no number of
loop iterations ever changes the outer `ret`, so the loop `while(ret==NULL)`
never exits with a buffer. -/
theorem c1_getBlock_never_returns :
    (getBlockBody (some 99) 7 { m := [(7, some 42)], ret := none }).m = [] ∧
    (getBlockBody (some 99) 7 { m := [(7, some 42)], ret := none }).ret = none ∧
    (∀ (sv : Option Nat) (b : Int) (n : Nat) (r : GetBlockRound),
      (getBlockIter sv b n r).ret = r.ret) := by
  exact ⟨by decide, by decide, fun sv b => getBlockIter_ret sv b⟩

/-- Claim C3 (code bug): the advance loop discards the `find` result and tests
an uninitialized iterator.  Under the it-equals-end junk resolution the loop
exits immediately, leaving `current_block = 5` even though 5 is still cached;
under the other resolution the loop never terminates for any fuel; the
spec-normative advance (`advanceLoop`) instead moves to 6, the next occupied
uncached block. -/
theorem c3_advance_loop_defect :
    buggyAdvanceExit [(5 : Int)] 5 = 5 ∧ (5 : Int) ∈ [(5 : Int)] ∧
    (∀ (fuel : Nat) (c : Int), buggyAdvanceSpin occAll 100 fuel c = none) ∧
    advanceLoop occAll 100 [5] 5 = 6 := by
  refine ⟨rfl, by decide, buggyAdvanceSpin_none occAll 100, ?_⟩
  have h6 : next_used_block occAll 100 5 = 6 := by
    rw [next_used_block]
    simp [occAll]
  have h2 : advanceLoop occAll 100 [5] 6 = 6 :=
    advanceLoop_not_mem occAll 100 [5] 6 (by decide)
  rw [advanceLoop]
  simp [h6, h2]

/-- Claim C6 counterexample: on a device that never makes progress, the
failure path of `readFromDev` performs 22 `Read` calls — 21 retry reads after
the initial read — so the claim's "exactly 20 retries, never a 21st" is
false on the code. -/
theorem c6_counterexample :
    (readFromDev devNever 4096).2.1 - 1 = 21 ∧
    ¬((readFromDev devNever 4096).2.1 - 1 ≤ 20) := by
  decide

/-- Claim C6 as amended (corrected): the retry loop performs at most 21 retry
reads (22 `Read` calls in total); a successful read assembles exactly the
first `bsize` bytes of the device stream, success being possible only within
the first 20 retries — a three-fragment device completes in 3 calls, a device
that never progresses fails after exactly 21 retries (22 calls), a one-byte
device whose data completes only on the 21st retry still fails — and a
retry-exhausted read on the direct path sets the sticky error flag. -/
theorem c6_retry_budget_amended :
    (∀ (d : DevRead) (bsize : Nat), (readFromDev d bsize).2.1 ≤ 22) ∧
    (∀ (d : DevRead) (bsize : Nat), (readFromDev d bsize).1 = true →
      (readFromDev d bsize).2.2 = (List.range bsize).map d.byte) ∧
    ((readFromDev devThreeFrag 12).1 = true ∧ (readFromDev devThreeFrag 12).2.1 = 3) ∧
    ((readFromDev devNever 4096).1 = false ∧ (readFromDev devNever 4096).2.1 = 22) ∧
    (readFromDev devOneByte 22).1 = false ∧
    Option.map (fun rp => rp.2.has_error) (readBlockDirect cfgLeak fs0 0) = some true := by
  refine ⟨?_, ?_, by decide, by decide, by decide, by decide⟩
  · intro d bsize
    have h := readFromDevLoop_calls_le d bsize 20 1 (readCall d 0 [] bsize)
    simpa [readFromDev] using h
  · intro d bsize hs
    have h0 : ([] : List Nat) = (List.range ([] : List Nat).length).map d.byte := by
      simp
    refine readFromDevLoop_success d bsize 20 1 (readCall d 0 [] bsize)
      (readCall_aligned d 0 [] bsize h0) ?_ hs
    rw [readCall_length]
    simp

/-- Witness for the amended C6 at concrete devices. -/
theorem c6_retry_budget_amended_witness :
    (readFromDev devThreeFrag 12).2.1 ≤ 22 ∧
    (readFromDev devThreeFrag 12).2.2 = (List.range 12).map devThreeFrag.byte :=
  ⟨c6_retry_budget_amended.1 devThreeFrag 12,
   c6_retry_budget_amended.2.1 devThreeFrag 12 (by decide)⟩

/-- Claim C2 (code bug): from the initial state one task step reaches the idle
wait; after `stop()` sets the flag, every task wakeup re-enters the idle wait
(the line-101 loop tests only `current_block == -1`), so the task never
reaches `tDone` and the owner's `waitFor` cannot complete — while the
backpressure wait, for contrast, does exit on `do_stop`. -/
theorem c2_stop_ignored_in_idle_wait :
    raRun cfg0 [RAOp.task, RAOp.stopReq] raInit = some sIdleStop ∧
    sIdleStop.do_stop = true ∧
    sIdleStop.taskPc = TaskPc.tIdleWait ∧
    (∀ n : Nat, raRun cfg0 (List.replicate n RAOp.task) sIdleStop = some sIdleStop) ∧
    taskBpWake cfg0 sBpStop = { sBpStop with taskPc := TaskPc.tDone } := by
  exact ⟨by decide, rfl, rfl, sIdleStop_self_loop, by decide⟩

/-- Claim C5 (code bug): the task's fetch completion stores the read result
(NULL on failure, line 123) and always leaves `readahead_miss` clear,
notifying the waiting consumer (125-129) — that much matches the claim; but
the serviced value being NULL, the consumer's loop never obtains a non-NULL
`ret`, with the literal shadowing (line 155) and even with the assignment
repaired: it erases the NULL entry, re-issues the fetch and waits again, for
any number of rounds, never consulting `has_error`. -/
theorem c5_failed_fetch_consumer_loops :
    (∀ s : RAState, (fetchDone s).readahead_miss = false) ∧
    (getBlockBody none 7 { m := [], ret := none }).m = [(7, none)] ∧
    (∀ n : Nat, (getBlockIter none 7 n { m := [(7, none)], ret := none }).ret = none) ∧
    (∀ n : Nat,
      (getBlockIterAssigned none 7 n { m := [(7, none)], ret := none }).ret = none) := by
  refine ⟨?_, by decide, ?_, ?_⟩
  · intro s
    unfold fetchDone
    by_cases h : s.readahead_miss <;> simp [h]
  · intro n
    simpa using getBlockIter_ret none 7 n { m := [(7, none)], ret := none }
  · intro n
    apply iterAssigned_none_ret 7 n
    · rfl
    · intro kv hkv
      simp only [List.mem_singleton] at hkv
      rw [hkv]

/-- Claim C7 (confirmed): in every state the machine can reach from the
initial state — under any interleaving of task steps, fetch completions,
consumer calls and wakeups, and `stop()` — the cache map holds at most
`readahead_num_blocks` (5120) entries; at the loop top with the count at the
bound (and above the low watermark, no miss, no stop) the task enters the
backpressure wait; a wakeup there goes back to waiting whenever the count is
still above `readahead_low_level_blocks` (2560) with no miss and no stop; and
it leaves the wait exactly when the count has drained to at most 2560, a miss
is pending, or stop was requested. -/
theorem c7_cache_bound_and_backpressure :
    (∀ (cfg : RACfg) (ops : List RAOp) (s : RAState),
      raRun cfg ops raInit = some s → s.read_blocks.length ≤ readahead_num_blocks) ∧
    (∀ (cfg : RACfg) (s : RAState), s.do_stop = false →
      readahead_num_blocks ≤ s.read_blocks.length →
      readahead_low_level_blocks < s.read_blocks.length → s.readahead_miss = false →
      taskTopStep cfg s = { s with taskPc := TaskPc.tBpWait }) ∧
    (∀ (cfg : RACfg) (s : RAState), s.do_stop = false →
      readahead_low_level_blocks < s.read_blocks.length → s.readahead_miss = false →
      taskBpWake cfg s = s) ∧
    (∀ (cfg : RACfg) (s : RAState),
      s.do_stop = true ∨ s.read_blocks.length ≤ readahead_low_level_blocks ∨
        s.readahead_miss = true →
      (taskBpWake cfg s).taskPc ≠ TaskPc.tBpWait) := by
  refine ⟨?_, ?_, ?_, ?_⟩
  · intro cfg ops s hrun
    exact (raRun_inv cfg ops raInit s raInit_inv hrun).1
  · intro cfg s hd hcap hlow hm
    unfold taskTopStep
    rw [if_neg (by rw [hd]; simp), if_pos ⟨hcap, hlow, hm⟩]
  · intro cfg s hd hlow hm
    unfold taskBpWake
    rw [if_neg (by rw [hd]; simp), if_pos ⟨hlow, hm⟩]
  · intro cfg s hres
    unfold taskBpWake
    by_cases hd : s.do_stop = true
    · rw [if_pos hd]
      simp
    · rw [if_neg hd]
      have hnb : ¬(readahead_low_level_blocks < s.read_blocks.length ∧
          s.readahead_miss = false) := by
        rcases hres with hres | hres | hres
        · exact absurd hres hd
        · intro hq
          omega
        · intro hq
          rw [hres] at hq
          exact absurd hq.2 (by simp)
      rw [if_neg hnb]
      exact afterBp_pc cfg s

/-- Witness for C7 at the initial state and a concrete full-cache state. -/
theorem c7_witness :
    raInit.read_blocks.length ≤ readahead_num_blocks ∧
    taskTopStep cfg0 sFull = { sFull with taskPc := TaskPc.tBpWait } ∧
    taskBpWake cfg0 sFullBp = sFullBp ∧
    (taskBpWake cfg0 sFullBpMiss).taskPc ≠ TaskPc.tBpWait :=
  ⟨c7_cache_bound_and_backpressure.1 cfg0 [] raInit rfl,
   c7_cache_bound_and_backpressure.2.1 cfg0 sFull rfl
     (by simp [sFull]) (by simp [sFull]; decide) rfl,
   c7_cache_bound_and_backpressure.2.2.1 cfg0 sFullBp rfl
     (by simp [sFullBp, sFull]; decide) rfl,
   c7_cache_bound_and_backpressure.2.2.2 cfg0 sFullBpMiss
     (Or.inr (Or.inr rfl))⟩

/-- Claim C10 (confirmed): in `readBlocks`, an occupied block whose
`readBlock` fails after setting the error flag is treated exactly like a
bitmap-absent block — two configurations that differ only in block `b` being
read-failing versus absent produce the same returned index list, the same
destination-slot count and the same destination writes; within the call the
failure is visible only through the sticky `has_error` flag, which is set
whenever the failing block lies in the scanned range. -/
theorem c10_failed_read_treated_as_absent :
    ∀ (cfg1 cfg2 : FsCfg) (start : Int) (n : Nat) (b : Int) (s : FsState),
      (∀ k < n, start + (k : Nat) ≠ b →
        rbOutcome cfg1 (start + k) = rbOutcome cfg2 (start + k)) →
      rbOutcome cfg1 b = RBOutcome.readFail →
      rbOutcome cfg2 b = RBOutcome.absent →
      (∀ k < n, rbOutcome cfg1 (start + k) ≠ RBOutcome.ub) →
      (∀ k < n, rbOutcome cfg2 (start + k) ≠ RBOutcome.ub) →
      ∃ r1 r2, readBlocks cfg1 s start n = some r1 ∧ readBlocks cfg2 s start n = some r2 ∧
        r1.ret = r2.ret ∧ r1.currbuf = r2.currbuf ∧ r1.writes = r2.writes ∧
        (∀ k < n, start + (k : Nat) = b → r1.fsSt.has_error = true) := by
  intro cfg1 cfg2 start n b s hagree hf1 hf2 hub1 hub2
  have hiff : ∀ k < n, (rbOutcome cfg1 (start + k) = RBOutcome.success ↔
      rbOutcome cfg2 (start + k) = RBOutcome.success) := by
    intro k hk
    by_cases hb : start + (k : Nat) = b
    · rw [hb, hf1, hf2]
      constructor <;> intro hx <;> exact absurd hx (by simp)
    · rw [hagree k hk hb]
  obtain ⟨r1, r2, e1, e2, hret, hcb, hw⟩ :=
    readBlocksGo_equiv cfg1 cfg2 n start
      { ret := [], currbuf := 0, writes := [], fsSt := s }
      { ret := [], currbuf := 0, writes := [], fsSt := s }
      rfl rfl rfl hiff hub1 hub2
  refine ⟨r1, r2, e1, e2, hret, hcb, hw, ?_⟩
  intro k hk hkb
  exact readBlocksGo_error_set cfg1 n start _ r1 k hk (by rw [hkb]; exact hf1) e1

/-- Witness for C10: three blocks, block 1 read-failing in `cfgW1` and absent
in `cfgW2`. -/
theorem c10_witness :
    ∃ r1 r2, readBlocks cfgW1 fs0 0 3 = some r1 ∧ readBlocks cfgW2 fs0 0 3 = some r2 ∧
      r1.ret = r2.ret ∧ r1.currbuf = r2.currbuf ∧ r1.writes = r2.writes ∧
      (∀ k < 3, (0 : Int) + (k : Nat) = 1 → r1.fsSt.has_error = true) :=
  c10_failed_read_treated_as_absent cfgW1 cfgW2 0 3 1 fs0
    (by decide) (by decide) (by decide) (by decide) (by decide)

end UrFS
